import Mathlib

/-!
Verification of the naming-table resolution engine of `src/main.py`
(a font-metadata CLI tool).

The shallow embedding models one record of the font's `name` table as a
`NameRecord`.  The raw byte string of a record is represented by its decoded
text: `text = some s` stands for bytes that decode to `s`, while `text = none`
stands for undecodable bytes (in the source, `record.toUnicode()` raising).
Writing a record (`record.string = value.encode(encoding)` or
`setName(value, ...)`) is modelled as storing `some value`; encoding followed
by decoding is treated as lossless.

Python truthiness of optional strings (`if config.subfamily:` etc.) is
modelled by `truthy`: `none` and `some ""` are falsy.
-/

/-- One entry of the font's `name` table (fontTools `NameRecord`). -/
structure NameRecord where
  nameID : Nat
  platformID : Nat
  platEncID : Nat
  langID : Nat
  text : Option String
deriving DecidableEq, Repr

/-- `class LicenseType(str, Enum)` from `src/main.py`. -/
inductive LicenseType where
  | OFL
  | APACHE
  | MIT
  | CUSTOM
deriving DecidableEq, Repr

/-- `ALLOWED_NAME_IDS` from `src/main.py` line 49 (a Python set, listed in the
source order). -/
def ALLOWED_NAME_IDS : List Nat := [0, 1, 2, 3, 4, 5, 6, 7, 8, 9, 16, 17, 13, 14]

/-- `LICENSE_INFO` from `src/main.py` lines 61-74; `LICENSE_INFO.get(t)` yields
`none` for `CUSTOM`, which has no entry in the dict. -/
def LICENSE_INFO : LicenseType → Option (String × String)
  | LicenseType.OFL =>
      some ("This Font Software is licensed under the SIL Open Font License, Version 1.1.",
            "http://scripts.sil.org/OFL")
  | LicenseType.APACHE =>
      some ("This Font Software is licensed under the Apache License, Version 2.0.",
            "http://www.apache.org/licenses/LICENSE-2.0")
  | LicenseType.MIT =>
      some ("This Font Software is licensed under the MIT License.",
            "https://opensource.org/licenses/MIT")
  | LicenseType.CUSTOM => none

/-- Python truthiness of an `Optional[str]`: `None` and `""` are falsy. -/
def truthy : Option String → Bool
  | none => false
  | some s => !(s == "")

/-- `FontToolConfig` dataclass from `src/main.py` lines 85-104 (the fields that
reach `update_font_metadata`; `input_path`/`output` are file-system plumbing
and are outside the transformer). -/
structure FontToolConfig where
  new_family : String
  subfamily : Option String := none
  license_type : Option LicenseType := none
  custom_license : Option String := none
  custom_license_url : Option String := none
  license_text : Option String := none
  license_url : Option String := none
  manufacturer : Option String := none
  designer : Option String := none
  trademark : Option String := none
  copyright_text : Option String := none
deriving Repr

/-- Python `s.replace(" ", "")`: drop every space character. -/
def stripSpaces (s : String) : String :=
  String.mk (s.data.filter (fun c => !(c == ' ')))

/-- `name_table.setName(value, name_id, 3, 1, 0x409)` appends a fresh record
at the canonical (platform 3, encoding 1, language 0x409) variant; in
`update_field` all records with this `name_id` were removed just before, so
the fontTools replace-or-append always appends. -/
def setNameRecord (value : String) (name_id : Nat) : NameRecord :=
  { nameID := name_id, platformID := 3, platEncID := 1, langID := 0x409,
    text := some value }

/-- `update_field` from `src/main.py` lines 139-144: remove every record with
this `name_id`, then insert one canonical record unless the value is `None`
or `""`. -/
def update_field (names : List NameRecord) (name_id : Nat) (value : Option String) :
    List NameRecord :=
  let filtered := names.filter fun r => r.nameID != name_id
  match value with
  | none => filtered
  | some v => if v = "" then filtered else filtered ++ [setNameRecord v name_id]

/-- One iteration of the snapshot loop of `src/main.py` lines 124-134:
a decodable Subfamily (2) record overwrites the first component, a decodable
Version (5) record overwrites the second, undecodable records are skipped
(`except Exception: pass`). -/
def scanStep (acc : String × Option String) (r : NameRecord) : String × Option String :=
  if r.nameID == 2 then
    match r.text with
    | some s => (s, acc.2)
    | none => acc
  else if r.nameID == 5 then
    match r.text with
    | some s => (acc.1, some s)
    | none => acc
  else acc

/-- The snapshot pass of `src/main.py` lines 121-134, started from
`original_subfamily = "Regular"` and `version_string = None`. -/
def scanOriginals (names : List NameRecord) : String × Option String :=
  names.foldl scanStep ("Regular", none)

/-- `original_subfamily` captured by the snapshot pass (line 122/127). -/
def original_subfamily (names : List NameRecord) : String :=
  (scanOriginals names).1

/-- `version_string` captured by the snapshot pass (line 123/132). -/
def version_string (names : List NameRecord) : Option String :=
  (scanOriginals names).2

/-- `new_subfamily = config.subfamily if config.subfamily else original_subfamily`
(line 137): Python truthiness, so a supplied empty string falls back to the
original. -/
def new_subfamily (config : FontToolConfig) (names : List NameRecord) : String :=
  match config.subfamily with
  | some s => if s = "" then original_subfamily names else s
  | none => original_subfamily names

/-- Lines 146-150: in-place rewrite of Family (1) and Typographic Family (16)
records with `new_family`, keeping each record's own platform/encoding/language. -/
def famApply (fam : String) (r : NameRecord) : NameRecord :=
  if r.nameID = 1 ∨ r.nameID = 16 then { r with text := some fam } else r

def familyStep (fam : String) (names : List NameRecord) : List NameRecord :=
  names.map (famApply fam)

/-- Lines 152-157: the Subfamily (2) field is rewritten (remove-then-reinsert)
only when `config.subfamily is not None`. -/
def subfamilyStep (config : FontToolConfig) (ns : String) (names : List NameRecord) :
    List NameRecord :=
  match config.subfamily with
  | some _ => update_field names 2 (some ns)
  | none => names

/-- Lines 159-163: in-place rewrite of Full Font Name (4) records. -/
def fullApply (fam ns : String) (r : NameRecord) : NameRecord :=
  if r.nameID = 4 then { r with text := some (fam ++ " " ++ ns) } else r

def fullNameStep (fam ns : String) (names : List NameRecord) : List NameRecord :=
  names.map (fullApply fam ns)

/-- Lines 165-170: in-place rewrite of PostScript Name (6) records with
`f"{new_family.replace(' ', '')}-{new_subfamily.replace(' ', '')}"`. -/
def psApply (fam ns : String) (r : NameRecord) : NameRecord :=
  if r.nameID = 6 then { r with text := some (stripSpaces fam ++ "-" ++ stripSpaces ns) }
  else r

def psNameStep (fam ns : String) (names : List NameRecord) : List NameRecord :=
  names.map (psApply fam ns)

/-- License handling, `src/main.py` lines 172-190. -/
def licenseStep (config : FontToolConfig) (names : List NameRecord) : List NameRecord :=
  match config.license_text with
  | some lt => update_field (update_field names 13 (some lt)) 14 config.license_url
  | none =>
    match config.license_type with
    | some lty =>
      if lty == LicenseType.CUSTOM && truthy config.custom_license
          && truthy config.custom_license_url then
        update_field (update_field names 13 config.custom_license) 14 config.custom_license_url
      else
        match LICENSE_INFO lty with
        | some li => update_field (update_field names 13 (some li.1)) 14 (some li.2)
        | none => names
    | none => names

/-- Lines 193-194: manufacturer (8) updated only when supplied. -/
def manufacturerStep (config : FontToolConfig) (names : List NameRecord) : List NameRecord :=
  match config.manufacturer with
  | some m => update_field names 8 (some m)
  | none => names

/-- Lines 195-196: designer (9) updated only when supplied. -/
def designerStep (config : FontToolConfig) (names : List NameRecord) : List NameRecord :=
  match config.designer with
  | some d => update_field names 9 (some d)
  | none => names

/-- Lines 202-204: `if version_string: update_field(5, version_string)` — the
restore is skipped when the captured text is `None` or `""` (truthiness). -/
def versionStep (vs : Option String) (names : List NameRecord) : List NameRecord :=
  match vs with
  | some v => if v = "" then names else update_field names 5 (some v)
  | none => names

/-- Line 207: final whitelist filter. -/
def whitelistStep (names : List NameRecord) : List NameRecord :=
  names.filter fun r => ALLOWED_NAME_IDS.contains r.nameID

/-- `update_font_metadata` from `src/main.py` lines 107-207, as the exact
sequence of the source's steps: snapshot, family rewrite (lines 146-150),
subfamily (152-157), full name (159-163), PostScript name (165-170), license
(172-190), manufacturer (193-194), designer (195-196), trademark
`update_field(7, config.trademark)` (197), copyright `update_field(0, ...)`
(200), version restore (202-204), whitelist filter (207). -/
def update_font_metadata (config : FontToolConfig) (names : List NameRecord) :
    List NameRecord :=
  whitelistStep
    (versionStep (version_string names)
      (update_field
        (update_field
          (designerStep config
            (manufacturerStep config
              (licenseStep config
                (psNameStep config.new_family (new_subfamily config names)
                  (fullNameStep config.new_family (new_subfamily config names)
                    (subfamilyStep config (new_subfamily config names)
                      (familyStep config.new_family names)))))))
          7 config.trademark)
        0 config.copyright_text))

/-- `get_copyright_notice` from `src/main.py` lines 77-82, with the wall-clock
year passed explicitly (`datetime.datetime.now().year`). -/
def get_copyright_notice (current_year : Nat) (manufacturer : Option String) : String :=
  if truthy manufacturer then
    "Copyright © " ++ toString current_year ++ " " ++ manufacturer.getD "" ++
      ". All Rights Reserved."
  else
    "Copyright © " ++ toString current_year ++ ". All Rights Reserved."

/-- The fatal configuration error of `process_font` lines 463-468: a Custom
license selection without both `--custom-license` and `--custom-license-url`
aborts the run (`typer.Exit(code=1)`) before any font data is mutated. -/
inductive ConfigurationError where
  | customLicenseMissing
deriving DecidableEq, Repr

/-- The CLI entry point `process_font`, `src/main.py` lines 373-499, restricted
to its core: resolve the license pair (lines 460-474), resolve the default
copyright (lines 476-482), build the `FontToolConfig` (lines 484-498) and run
the transformer.  File I/O is external; an `Except.error` models the fatal
abort before the font is mutated or saved (no output produced). -/
def process_font (current_year : Nat) (names : List NameRecord) (new_family : String)
    (subfamily : Option String) (license_type : LicenseType)
    (custom_license custom_license_url : Option String)
    (manufacturer designer trademark copyright_text : Option String) :
    Except ConfigurationError (List NameRecord) :=
  if license_type == LicenseType.CUSTOM
      && !(truthy custom_license && truthy custom_license_url) then
    Except.error ConfigurationError.customLicenseMissing
  else
    let licPair : String × String :=
      if license_type == LicenseType.CUSTOM then
        (custom_license.getD "", custom_license_url.getD "")
      else
        match LICENSE_INFO license_type with
        | some li => li
        | none => ("", "")
    let copyrightResolved : Option String :=
      match copyright_text with
      | some c => some c
      | none => if truthy manufacturer
                then some (get_copyright_notice current_year manufacturer)
                else none
    let config : FontToolConfig :=
      { new_family := new_family
        subfamily := subfamily
        license_type := some license_type
        custom_license := custom_license
        custom_license_url := custom_license_url
        license_text := some licPair.1
        license_url := some licPair.2
        manufacturer := manufacturer
        designer := designer
        trademark := trademark
        copyright_text := copyrightResolved }
    Except.ok (update_font_metadata config names)

/-!
### Helper notions for the structural analysis

`update_field names i v` always splits into "survivors" (records whose field
id is not `i`) followed by at most one canonical appended record; `optAppend`
is that appended part.
-/

/-- The (at most one) canonical record appended by `update_field`. -/
def optAppend : Option String → Nat → List NameRecord
  | none, _ => []
  | some v, i => if v = "" then [] else [setNameRecord v i]

lemma update_field_eq (names : List NameRecord) (i : Nat) (v : Option String) :
    update_field names i v = names.filter (fun r => !(r.nameID == i)) ++ optAppend v i := by
  have hb : (fun (r : NameRecord) => r.nameID != i) = fun r => !(r.nameID == i) := rfl
  unfold update_field optAppend
  cases v with
  | none => rw [hb]; simp
  | some s => by_cases hs : s = "" <;> rw [hb] <;> simp [hs]

lemma optAppend_mem {v : Option String} {i : Nat} {r : NameRecord}
    (h : r ∈ optAppend v i) :
    r.nameID = i ∧ ∃ s, v = some s ∧ s ≠ "" ∧ r = setNameRecord s i := by
  cases v with
  | none => simp [optAppend] at h
  | some s =>
    by_cases hs : s = "" <;> simp [optAppend, hs] at h
    exact ⟨by simp [h, setNameRecord], s, rfl, hs, h⟩

lemma update_field_shape (B A : List NameRecord) (q : NameRecord → Bool) (i : Nat)
    (v : Option String) (hA : ∀ r ∈ A, r.nameID ≠ i) :
    update_field (B.filter q ++ A) i v =
      B.filter (fun r => q r && !(r.nameID == i)) ++ (A ++ optAppend v i) := by
  rw [update_field_eq, List.filter_append, List.filter_filter, List.append_assoc]
  congr 1
  · exact List.filter_congr fun r _ => Bool.and_comm _ _
  · congr 1
    exact List.filter_eq_self.mpr fun r hr => by simp [hA r hr]

lemma filter_map_comm (f : NameRecord → NameRecord) (q : NameRecord → Bool)
    (hq : ∀ r, q (f r) = q r) (l : List NameRecord) :
    (l.map f).filter q = (l.filter q).map f := by
  induction l with
  | nil => rfl
  | cons a t ih =>
    simp only [List.map_cons, List.filter_cons, hq]
    cases hqa : q a <;> simp [hqa, ih]

/-!
### Projections of the snapshot pass

The snapshot fold only looks at Subfamily (2) and Version (5) records; these
lemmas let the two captured values be computed from the corresponding
sub-sequences of the table.
-/

def subStep (a : String) (r : NameRecord) : String :=
  if r.nameID == 2 then
    match r.text with
    | some s => s
    | none => a
  else a

def verStep (a : Option String) (r : NameRecord) : Option String :=
  if r.nameID == 5 then
    match r.text with
    | some s => some s
    | none => a
  else a

lemma scanStep_fst (acc : String × Option String) (r : NameRecord) :
    (scanStep acc r).1 = subStep acc.1 r := by
  unfold scanStep subStep
  by_cases h2 : (r.nameID == 2) = true
  · cases ht : r.text <;> simp [h2]
  · cases ht : r.text <;> by_cases h5 : (r.nameID == 5) = true <;> simp [h2, h5]

lemma scanStep_snd (acc : String × Option String) (r : NameRecord) :
    (scanStep acc r).2 = verStep acc.2 r := by
  unfold scanStep verStep
  by_cases h2 : (r.nameID == 2) = true
  · have h5 : (r.nameID == 5) = false := by
      have h2' : r.nameID = 2 := by simpa using h2
      simp [h2']
    cases ht : r.text <;> simp [h2, h5]
  · cases ht : r.text <;> by_cases h5 : (r.nameID == 5) = true <;> simp [h2, h5]

lemma scan_fst (l : List NameRecord) (acc : String × Option String) :
    (l.foldl scanStep acc).1 = l.foldl subStep acc.1 := by
  induction l generalizing acc with
  | nil => rfl
  | cons r t ih => rw [List.foldl_cons, List.foldl_cons, ih, scanStep_fst]

lemma scan_snd (l : List NameRecord) (acc : String × Option String) :
    (l.foldl scanStep acc).2 = l.foldl verStep acc.2 := by
  induction l generalizing acc with
  | nil => rfl
  | cons r t ih => rw [List.foldl_cons, List.foldl_cons, ih, scanStep_snd]

lemma original_subfamily_eq (names : List NameRecord) :
    original_subfamily names = names.foldl subStep "Regular" := by
  unfold original_subfamily scanOriginals
  exact scan_fst names ("Regular", none)

lemma version_string_eq (names : List NameRecord) :
    version_string names = names.foldl verStep none := by
  unfold version_string scanOriginals
  exact scan_snd names ("Regular", none)

lemma foldl_subStep_filter (l : List NameRecord) (a : String) :
    l.foldl subStep a = (l.filter (fun r => r.nameID == 2)).foldl subStep a := by
  induction l generalizing a with
  | nil => rfl
  | cons r t ih =>
    rw [List.foldl_cons, List.filter_cons]
    cases h2 : (r.nameID == 2) <;> simp only [if_pos, if_neg, Bool.false_eq_true,
      ite_false, ite_true]
    · rw [show subStep a r = a by simp [subStep, h2], ih]
    · rw [List.foldl_cons, ih]

lemma foldl_verStep_filter (l : List NameRecord) (a : Option String) :
    l.foldl verStep a = (l.filter (fun r => r.nameID == 5)).foldl verStep a := by
  induction l generalizing a with
  | nil => rfl
  | cons r t ih =>
    rw [List.foldl_cons, List.filter_cons]
    cases h5 : (r.nameID == 5) <;> simp only [if_pos, if_neg, Bool.false_eq_true,
      ite_false, ite_true]
    · rw [show verStep a r = a by simp [verStep, h5], ih]
    · rw [List.foldl_cons, ih]

/-!
### Per-step shape lemmas

Each transformer step maps a list of the shape `B.filter q ++ A` (mutated
survivors followed by already-appended canonical records) to a list of the
same shape.
-/

lemma famApply_nameID (fam : String) (r : NameRecord) :
    (famApply fam r).nameID = r.nameID := by
  unfold famApply; split <;> rfl

lemma fullApply_nameID (fam ns : String) (r : NameRecord) :
    (fullApply fam ns r).nameID = r.nameID := by
  unfold fullApply; split <;> rfl

lemma psApply_nameID (fam ns : String) (r : NameRecord) :
    (psApply fam ns r).nameID = r.nameID := by
  unfold psApply; split <;> rfl

/-- The canonical Subfamily record appended by the subfamily step (empty when
`config.subfamily` is absent). -/
def subApp (config : FontToolConfig) (ns : String) : List NameRecord :=
  match config.subfamily with
  | some _ => optAppend (some ns) 2
  | none => []

lemma subApp_nameID {config : FontToolConfig} {ns : String} {r : NameRecord}
    (h : r ∈ subApp config ns) : r.nameID = 2 ∧ config.subfamily.isSome = true := by
  unfold subApp at h
  cases hs : config.subfamily with
  | none => rw [hs] at h; simp at h
  | some s => rw [hs] at h; exact ⟨(optAppend_mem h).1, rfl⟩

lemma subfamilyStep_shape (config : FontToolConfig) (ns : String)
    (B A : List NameRecord) (q : NameRecord → Bool) (hA : ∀ r ∈ A, r.nameID ≠ 2) :
    subfamilyStep config ns (B.filter q ++ A) =
      B.filter (fun r => q r && !(config.subfamily.isSome && r.nameID == 2)) ++
        (A ++ subApp config ns) := by
  cases hs : config.subfamily with
  | none => simp only [subfamilyStep, subApp, hs]; simp
  | some s =>
    simp only [subfamilyStep, subApp, hs, Option.isSome_some, Bool.true_and]
    exact update_field_shape B A q 2 (some ns) hA

lemma fullNameStep_shape (fam ns : String) (B A : List NameRecord)
    (q : NameRecord → Bool) (hq : ∀ r, q (fullApply fam ns r) = q r)
    (hA : ∀ r ∈ A, r.nameID ≠ 4) :
    fullNameStep fam ns (B.filter q ++ A) = (B.map (fullApply fam ns)).filter q ++ A := by
  unfold fullNameStep
  rw [List.map_append, filter_map_comm _ q hq]
  congr 1
  calc A.map (fullApply fam ns) = A.map id :=
        List.map_congr_left fun r hr => by simp [fullApply, hA r hr]
    _ = A := List.map_id A

lemma psNameStep_shape (fam ns : String) (B A : List NameRecord)
    (q : NameRecord → Bool) (hq : ∀ r, q (psApply fam ns r) = q r)
    (hA : ∀ r ∈ A, r.nameID ≠ 6) :
    psNameStep fam ns (B.filter q ++ A) = (B.map (psApply fam ns)).filter q ++ A := by
  unfold psNameStep
  rw [List.map_append, filter_map_comm _ q hq]
  congr 1
  calc A.map (psApply fam ns) = A.map id :=
        List.map_congr_left fun r hr => by simp [psApply, hA r hr]
    _ = A := List.map_id A

/-- Whether the license branch of lines 172-190 touches fields 13/14 at all. -/
def licenseApplied (config : FontToolConfig) : Bool :=
  match config.license_text with
  | some _ => true
  | none =>
    match config.license_type with
    | some lty =>
      if lty == LicenseType.CUSTOM && truthy config.custom_license
          && truthy config.custom_license_url then true
      else (LICENSE_INFO lty).isSome
    | none => false

/-- The canonical records appended by the license branch. -/
def licAppends (config : FontToolConfig) : List NameRecord :=
  match config.license_text with
  | some lt => optAppend (some lt) 13 ++ optAppend config.license_url 14
  | none =>
    match config.license_type with
    | some lty =>
      if lty == LicenseType.CUSTOM && truthy config.custom_license
          && truthy config.custom_license_url then
        optAppend config.custom_license 13 ++ optAppend config.custom_license_url 14
      else
        match LICENSE_INFO lty with
        | some li => optAppend (some li.1) 13 ++ optAppend (some li.2) 14
        | none => []
    | none => []

lemma mem_two_optAppend {v13 v14 : Option String} {r : NameRecord}
    (h : r ∈ optAppend v13 13 ++ optAppend v14 14) : r.nameID = 13 ∨ r.nameID = 14 := by
  rcases List.mem_append.mp h with h' | h'
  · exact Or.inl (optAppend_mem h').1
  · exact Or.inr (optAppend_mem h').1

lemma licAppends_nameID {config : FontToolConfig} {r : NameRecord}
    (h : r ∈ licAppends config) :
    (r.nameID = 13 ∨ r.nameID = 14) ∧ licenseApplied config = true := by
  cases hlt : config.license_text with
  | some lt =>
    simp only [licAppends, hlt] at h
    have happ : licenseApplied config = true := by simp only [licenseApplied, hlt]
    exact ⟨mem_two_optAppend h, happ⟩
  | none =>
    cases hlty : config.license_type with
    | none => simp only [licAppends, hlt, hlty] at h; simp at h
    | some lty =>
      by_cases hc : (lty == LicenseType.CUSTOM && truthy config.custom_license
          && truthy config.custom_license_url) = true
      · simp only [licAppends, hlt, hlty, if_pos hc] at h
        have happ : licenseApplied config = true := by
          simp only [licenseApplied, hlt, hlty, if_pos hc]
        exact ⟨mem_two_optAppend h, happ⟩
      · cases hli : LICENSE_INFO lty with
        | none => simp only [licAppends, hlt, hlty, if_neg hc, hli] at h; simp at h
        | some li =>
          simp only [licAppends, hlt, hlty, if_neg hc, hli] at h
          have happ : licenseApplied config = true := by
            simp only [licenseApplied, hlt, hlty, if_neg hc, hli, Option.isSome_some]
          exact ⟨mem_two_optAppend h, happ⟩

lemma update_field_shape2 (B A : List NameRecord) (q : NameRecord → Bool)
    (v13 v14 : Option String) (hA13 : ∀ r ∈ A, r.nameID ≠ 13)
    (hA14 : ∀ r ∈ A, r.nameID ≠ 14) :
    update_field (update_field (B.filter q ++ A) 13 v13) 14 v14 =
      B.filter (fun r => q r && !(r.nameID == 13 || r.nameID == 14)) ++
        (A ++ (optAppend v13 13 ++ optAppend v14 14)) := by
  rw [update_field_shape B A q 13 v13 hA13]
  rw [update_field_shape B (A ++ optAppend v13 13) _ 14 v14 ?side]
  case side =>
    intro r hr
    rcases List.mem_append.mp hr with h | h
    · exact hA14 r h
    · rw [(optAppend_mem h).1]; omega
  rw [List.append_assoc]
  congr 1
  exact List.filter_congr fun r _ => by
    cases hq : q r <;> cases h13 : r.nameID == 13 <;> cases h14 : r.nameID == 14 <;>
      simp [bne, h13, h14]

lemma licenseStep_shape (config : FontToolConfig) (B A : List NameRecord)
    (q : NameRecord → Bool) (hA13 : ∀ r ∈ A, r.nameID ≠ 13)
    (hA14 : ∀ r ∈ A, r.nameID ≠ 14) :
    licenseStep config (B.filter q ++ A) =
      B.filter (fun r => q r &&
          !(licenseApplied config && (r.nameID == 13 || r.nameID == 14))) ++
        (A ++ licAppends config) := by
  cases hlt : config.license_text with
  | some lt =>
    simp only [licenseStep, licAppends, licenseApplied, hlt, Bool.true_and]
    exact update_field_shape2 B A q (some lt) config.license_url hA13 hA14
  | none =>
    cases hlty : config.license_type with
    | none =>
      simp only [licenseStep, licAppends, licenseApplied, hlt, hlty]
      simp
    | some lty =>
      by_cases hc : (lty == LicenseType.CUSTOM && truthy config.custom_license
          && truthy config.custom_license_url) = true
      · simp only [licenseStep, licAppends, licenseApplied, hlt, hlty, if_pos hc,
          Bool.true_and]
        exact update_field_shape2 B A q config.custom_license config.custom_license_url
          hA13 hA14
      · cases hli : LICENSE_INFO lty with
        | none =>
          simp only [licenseStep, licAppends, licenseApplied, hlt, hlty, if_neg hc, hli]
          simp
        | some li =>
          simp only [licenseStep, licAppends, licenseApplied, hlt, hlty, if_neg hc, hli,
            Option.isSome_some, Bool.true_and]
          exact update_field_shape2 B A q (some li.1) (some li.2) hA13 hA14

lemma manufacturerStep_shape (config : FontToolConfig) (B A : List NameRecord)
    (q : NameRecord → Bool) (hA : ∀ r ∈ A, r.nameID ≠ 8) :
    manufacturerStep config (B.filter q ++ A) =
      B.filter (fun r => q r && !(config.manufacturer.isSome && r.nameID == 8)) ++
        (A ++ optAppend config.manufacturer 8) := by
  cases hm : config.manufacturer with
  | none => simp only [manufacturerStep, hm]; simp [optAppend]
  | some m =>
    simp only [manufacturerStep, hm, Option.isSome_some, Bool.true_and]
    exact update_field_shape B A q 8 (some m) hA

lemma designerStep_shape (config : FontToolConfig) (B A : List NameRecord)
    (q : NameRecord → Bool) (hA : ∀ r ∈ A, r.nameID ≠ 9) :
    designerStep config (B.filter q ++ A) =
      B.filter (fun r => q r && !(config.designer.isSome && r.nameID == 9)) ++
        (A ++ optAppend config.designer 9) := by
  cases hd : config.designer with
  | none => simp only [designerStep, hd]; simp [optAppend]
  | some d =>
    simp only [designerStep, hd, Option.isSome_some, Bool.true_and]
    exact update_field_shape B A q 9 (some d) hA

lemma versionStep_shape (vs : Option String) (B A : List NameRecord)
    (q : NameRecord → Bool) (hA : ∀ r ∈ A, r.nameID ≠ 5) :
    versionStep vs (B.filter q ++ A) =
      B.filter (fun r => q r && !(truthy vs && r.nameID == 5)) ++
        (A ++ optAppend vs 5) := by
  cases vs with
  | none => simp [versionStep, truthy, optAppend]
  | some v =>
    by_cases hv : v = ""
    · subst hv; simp [versionStep, truthy, optAppend]
    · have ht : truthy (some v) = true := by simp [truthy, hv]
      simp only [versionStep, if_neg hv, ht, Bool.true_and]
      exact update_field_shape B A q 5 (some v) hA

lemma whitelistStep_shape (B A : List NameRecord) (q : NameRecord → Bool)
    (hA : ∀ r ∈ A, ALLOWED_NAME_IDS.contains r.nameID = true) :
    whitelistStep (B.filter q ++ A) =
      B.filter (fun r => q r && ALLOWED_NAME_IDS.contains r.nameID) ++ A := by
  unfold whitelistStep
  rw [List.filter_append, List.filter_filter]
  congr 1
  · exact List.filter_congr fun r _ => Bool.and_comm _ _
  · exact List.filter_eq_self.mpr hA

/-!
### The structural characterization of the transformer

`update_font_metadata config names` always equals the original records,
mutated in place (Family/TypographicFamily/FullName/PostScriptName texts) and
filtered by a per-field-id predicate `keepB`, followed by the canonically
appended records `appendsOf`.
-/

/-- The combined in-place text mutation applied to every surviving original
record (composition of the Family, FullName and PostScript steps). -/
def mutDerived (fam ns : String) (r : NameRecord) : NameRecord :=
  if r.nameID = 1 ∨ r.nameID = 16 then { r with text := some fam }
  else if r.nameID = 4 then { r with text := some (fam ++ " " ++ ns) }
  else if r.nameID = 6 then { r with text := some (stripSpaces fam ++ "-" ++ stripSpaces ns) }
  else r

lemma mut_compose (fam ns : String) (r : NameRecord) :
    psApply fam ns (fullApply fam ns (famApply fam r)) = mutDerived fam ns r := by
  rcases r with ⟨j, p, e, lg, t⟩
  by_cases h1 : j = 1 ∨ j = 16
  · rcases h1 with h | h <;> subst h <;>
      simp [famApply, fullApply, psApply, mutDerived]
  · by_cases h4 : j = 4
    · subst h4; simp [famApply, fullApply, psApply, mutDerived]
    · by_cases h6 : j = 6
      · subst h6; simp [famApply, fullApply, psApply, mutDerived]
      · simp [famApply, fullApply, psApply, mutDerived, h1, h4, h6]

lemma mutDerived_nameID (fam ns : String) (r : NameRecord) :
    (mutDerived fam ns r).nameID = r.nameID := by
  unfold mutDerived; split <;> try rfl
  split <;> try rfl
  split <;> rfl

/-- Field ids removed by some remove-then-reinsert step of the run
(`tv` is the truthiness of the captured version string). -/
def removedB (config : FontToolConfig) (tv : Bool) (j : Nat) : Bool :=
  (config.subfamily.isSome && j == 2) ||
  (licenseApplied config && (j == 13 || j == 14)) ||
  (config.manufacturer.isSome && j == 8) ||
  (config.designer.isSome && j == 9) ||
  j == 7 || j == 0 || (tv && j == 5)

/-- A surviving original record must be whitelisted and not belong to a
removed field id. -/
def keepB (config : FontToolConfig) (tv : Bool) (j : Nat) : Bool :=
  !(removedB config tv j) && ALLOWED_NAME_IDS.contains j

/-- All records appended during one run, in append order. -/
def appendsOf (config : FontToolConfig) (ns : String) (vs : Option String) :
    List NameRecord :=
  subApp config ns ++ licAppends config ++ optAppend config.manufacturer 8 ++
    optAppend config.designer 9 ++ optAppend config.trademark 7 ++
    optAppend config.copyright_text 0 ++ optAppend vs 5

lemma bool_norm : ∀ a b c d e f g h : Bool,
    ((((((((true && !a) && !b) && !c) && !d) && !e) && !f) && !g) && h) =
      (!(a || b || c || d || e || f || g) && h) := by decide

/-- Structural characterization of `update_font_metadata`. -/
theorem update_font_metadata_shape (config : FontToolConfig) (names : List NameRecord) :
    update_font_metadata config names =
      (names.map (mutDerived config.new_family (new_subfamily config names))).filter
          (fun r => keepB config (truthy (version_string names)) r.nameID) ++
        appendsOf config (new_subfamily config names) (version_string names) := by
  have h0 : familyStep config.new_family names =
      (names.map (famApply config.new_family)).filter (fun _ => true) ++
        ([] : List NameRecord) := by
    simp [familyStep]
  unfold update_font_metadata
  rw [h0]
  rw [subfamilyStep_shape]
  rw [fullNameStep_shape]
  rw [psNameStep_shape]
  rw [licenseStep_shape]
  rw [manufacturerStep_shape]
  rw [designerStep_shape]
  rw [update_field_shape]
  rw [update_field_shape]
  rw [versionStep_shape]
  rw [whitelistStep_shape]
  · rw [List.map_map, List.map_map]
    rw [show (psApply config.new_family (new_subfamily config names) ∘
          fullApply config.new_family (new_subfamily config names)) ∘
          famApply config.new_family =
        mutDerived config.new_family (new_subfamily config names) from
      funext (mut_compose config.new_family (new_subfamily config names))]
    congr 1
    exact List.filter_congr fun r _ => by
      simp only [keepB, removedB]
      exact bool_norm _ _ _ _ _ _ _ _
  all_goals
    first
    | (intro r; simp only [fullApply_nameID, psApply_nameID])
    | (intro r hr
       simp only [List.nil_append, List.mem_append] at hr
       repeat rcases hr with hr | hr
       all_goals
         first
         | exact absurd hr (List.not_mem_nil _)
         | (rw [(subApp_nameID hr).1]; decide)
         | (rw [(optAppend_mem hr).1]; decide)
         | (rcases (licAppends_nameID hr).1 with h2 | h2 <;> rw [h2] <;> decide))

/-!
### Reading off single-field slices of the output
-/

lemma filter_eq_nil_of_ids {l : List NameRecord} {i : Nat} (h : ∀ x ∈ l, x.nameID ≠ i) :
    l.filter (fun r => r.nameID == i) = [] :=
  List.filter_eq_nil_iff.mpr fun r hr => by simp [h r hr]

lemma filter_eq_self_of_ids {l : List NameRecord} {i : Nat} (h : ∀ r ∈ l, r.nameID = i) :
    l.filter (fun r => r.nameID == i) = l :=
  List.filter_eq_self.mpr fun r hr => by simp [h r hr]

lemma appendsOf_mem {config : FontToolConfig} {ns : String} {vs : Option String}
    {r : NameRecord} (h : r ∈ appendsOf config ns vs) :
    r.nameID = 2 ∨ r.nameID = 13 ∨ r.nameID = 14 ∨ r.nameID = 8 ∨ r.nameID = 9 ∨
      r.nameID = 7 ∨ r.nameID = 0 ∨ r.nameID = 5 := by
  unfold appendsOf at h
  simp only [List.mem_append] at h
  rcases h with ((((((h | h) | h) | h) | h) | h) | h)
  · exact Or.inl (subApp_nameID h).1
  · rcases (licAppends_nameID h).1 with h' | h'
    · exact Or.inr (Or.inl h')
    · exact Or.inr (Or.inr (Or.inl h'))
  · exact Or.inr (Or.inr (Or.inr (Or.inl (optAppend_mem h).1)))
  · exact Or.inr (Or.inr (Or.inr (Or.inr (Or.inl (optAppend_mem h).1))))
  · exact Or.inr (Or.inr (Or.inr (Or.inr (Or.inr (Or.inl (optAppend_mem h).1)))))
  · exact Or.inr (Or.inr (Or.inr (Or.inr (Or.inr (Or.inr (Or.inl (optAppend_mem h).1))))))
  · exact Or.inr (Or.inr (Or.inr (Or.inr (Or.inr (Or.inr (Or.inr (optAppend_mem h).1))))))

lemma filter_keep_at_id (M : List NameRecord) (k : Nat → Bool) (i : Nat) :
    (M.filter (fun r => k r.nameID)).filter (fun r => r.nameID == i) =
      if k i then M.filter (fun r => r.nameID == i) else [] := by
  rw [List.filter_filter]
  by_cases hk : k i = true
  · rw [if_pos hk]
    exact List.filter_congr fun r _ => by
      cases hi : r.nameID == i
      · simp [hi]
      · have hri : r.nameID = i := by simpa using hi
        simp [hi, hri, hk]
  · rw [if_neg hk]
    refine List.filter_eq_nil_iff.mpr fun r _ => ?_
    cases hi : r.nameID == i
    · simp [hi]
    · have hri : r.nameID = i := by simpa using hi
      simp [hi, hri]
      simpa using hk

/-- The records of the output carrying field id `i` are the (possibly empty)
kept slice of the mutated input followed by the appended slice. -/
lemma output_filter_at (config : FontToolConfig) (names : List NameRecord) (i : Nat) :
    (update_font_metadata config names).filter (fun r => r.nameID == i) =
      (if keepB config (truthy (version_string names)) i then
        (names.map (mutDerived config.new_family (new_subfamily config names))).filter
          (fun r => r.nameID == i)
      else []) ++
      (appendsOf config (new_subfamily config names) (version_string names)).filter
        (fun r => r.nameID == i) := by
  rw [update_font_metadata_shape, List.filter_append, filter_keep_at_id]

lemma mutDerived_id {fam ns : String} {r : NameRecord} (h1 : r.nameID ≠ 1)
    (h16 : r.nameID ≠ 16) (h4 : r.nameID ≠ 4) (h6 : r.nameID ≠ 6) :
    mutDerived fam ns r = r := by
  simp [mutDerived, h1, h16, h4, h6]

lemma map_mut_filter_at (fam ns : String) (names : List NameRecord) (i : Nat)
    (h1 : i ≠ 1) (h16 : i ≠ 16) (h4 : i ≠ 4) (h6 : i ≠ 6) :
    (names.map (mutDerived fam ns)).filter (fun r => r.nameID == i) =
      names.filter (fun r => r.nameID == i) := by
  rw [filter_map_comm _ _ (fun r => by rw [mutDerived_nameID])]
  have hid : ∀ r ∈ names.filter (fun r => r.nameID == i), mutDerived fam ns r = id r := by
    intro r hr
    have hri : r.nameID = i := by simpa using (List.mem_filter.mp hr).2
    exact mutDerived_id (by omega) (by omega) (by omega) (by omega)
  rw [List.map_congr_left hid, List.map_id]

lemma keepB_at_one (config : FontToolConfig) (tv : Bool) : keepB config tv 1 = true := by
  simp [keepB, removedB, ALLOWED_NAME_IDS]

lemma keepB_at_sixteen (config : FontToolConfig) (tv : Bool) : keepB config tv 16 = true := by
  simp [keepB, removedB, ALLOWED_NAME_IDS]

lemma keepB_at_two (config : FontToolConfig) (tv : Bool) :
    keepB config tv 2 = !config.subfamily.isSome := by
  simp [keepB, removedB, ALLOWED_NAME_IDS]

lemma keepB_at_five (config : FontToolConfig) (tv : Bool) : keepB config tv 5 = !tv := by
  simp [keepB, removedB, ALLOWED_NAME_IDS]

lemma keepB_at_13 (config : FontToolConfig) (tv : Bool) :
    keepB config tv 13 = !licenseApplied config := by
  simp [keepB, removedB, ALLOWED_NAME_IDS]

lemma keepB_at_14 (config : FontToolConfig) (tv : Bool) :
    keepB config tv 14 = !licenseApplied config := by
  simp [keepB, removedB, ALLOWED_NAME_IDS]

lemma licAppends_ids_ne {config : FontToolConfig} {i : Nat} (h13 : i ≠ 13) (h14 : i ≠ 14) :
    ∀ r ∈ licAppends config, r.nameID ≠ i := fun r hr => by
  rcases (licAppends_nameID hr).1 with h | h <;> omega

lemma appendsOf_filter_five (config : FontToolConfig) (ns : String) (vs : Option String) :
    (appendsOf config ns vs).filter (fun r => r.nameID == 5) = optAppend vs 5 := by
  unfold appendsOf
  simp only [List.filter_append]
  rw [filter_eq_nil_of_ids (fun r hr => by rw [(subApp_nameID hr).1]; decide),
    filter_eq_nil_of_ids (licAppends_ids_ne (by decide) (by decide)),
    filter_eq_nil_of_ids (fun r hr => by rw [(optAppend_mem hr).1]; decide),
    filter_eq_nil_of_ids (fun r hr => by rw [(optAppend_mem hr).1]; decide),
    filter_eq_nil_of_ids (fun r hr => by rw [(optAppend_mem hr).1]; decide),
    filter_eq_nil_of_ids (fun r hr => by rw [(optAppend_mem hr).1]; decide),
    filter_eq_self_of_ids (fun r hr => (optAppend_mem hr).1)]
  simp

lemma appendsOf_filter_two (config : FontToolConfig) (ns : String) (vs : Option String) :
    (appendsOf config ns vs).filter (fun r => r.nameID == 2) = subApp config ns := by
  unfold appendsOf
  simp only [List.filter_append]
  rw [filter_eq_self_of_ids (fun r hr => (subApp_nameID hr).1),
    filter_eq_nil_of_ids (licAppends_ids_ne (by decide) (by decide)),
    filter_eq_nil_of_ids (fun r hr => by rw [(optAppend_mem hr).1]; decide),
    filter_eq_nil_of_ids (fun r hr => by rw [(optAppend_mem hr).1]; decide),
    filter_eq_nil_of_ids (fun r hr => by rw [(optAppend_mem hr).1]; decide),
    filter_eq_nil_of_ids (fun r hr => by rw [(optAppend_mem hr).1]; decide),
    filter_eq_nil_of_ids (fun r hr => by rw [(optAppend_mem hr).1]; decide)]
  simp

lemma appendsOf_filter_other (config : FontToolConfig) (ns : String) (vs : Option String)
    {i : Nat} (h2 : i ≠ 2) (h13 : i ≠ 13) (h14 : i ≠ 14) (h8 : i ≠ 8) (h9 : i ≠ 9)
    (h7 : i ≠ 7) (h0 : i ≠ 0) (h5 : i ≠ 5) :
    (appendsOf config ns vs).filter (fun r => r.nameID == i) = [] := by
  refine filter_eq_nil_of_ids fun r hr => ?_
  rcases appendsOf_mem hr with h | h | h | h | h | h | h | h <;> omega

lemma foldl_subStep_undecodable (l : List NameRecord) (a : String)
    (h : ∀ r ∈ l, r.nameID = 2 → r.text = none) : l.foldl subStep a = a := by
  induction l generalizing a with
  | nil => rfl
  | cons r t ih =>
    rw [List.foldl_cons]
    have hstep : subStep a r = a := by
      unfold subStep
      cases h2 : (r.nameID == 2)
      · simp [h2]
      · have hn : r.text = none := h r (by simp) (by simpa using h2)
        simp [h2, hn]
    rw [hstep]
    exact ih a fun r' hr' => h r' (List.mem_cons_of_mem _ hr')

/-!
### Claim theorems
-/

/-- Claim C1 (confirmed): for every input naming table and every update plan,
every record in the table produced by `update_font_metadata` has a field id
belonging to `ALLOWED_NAME_IDS` = {0,1,2,3,4,5,6,7,8,9,13,14,16,17}; no record
with any other field id survives, regardless of whether earlier steps touched
it. -/
theorem c1_whitelist_closure (config : FontToolConfig) (names : List NameRecord)
    (r : NameRecord) (h : r ∈ update_font_metadata config names) :
    r.nameID ∈ ALLOWED_NAME_IDS := by
  rw [update_font_metadata_shape] at h
  rcases List.mem_append.mp h with h | h
  · have hk := (List.mem_filter.mp h).2
    simp only [keepB, Bool.and_eq_true] at hk
    simpa using hk.2
  · rcases appendsOf_mem h with h' | h' | h' | h' | h' | h' | h' | h' <;> rw [h'] <;> decide

/-- Witness for C1 at a concrete table and plan. -/
theorem c1_whitelist_closure_witness : (setNameRecord "TM" 7).nameID ∈ ALLOWED_NAME_IDS :=
  c1_whitelist_closure { new_family := "F", trademark := some "TM" } []
    (setNameRecord "TM" 7) (by decide)

/-- Claim C2 (code bug): the claim says a plan supplying `None` for Trademark
leaves the original records untouched — and the source's own dataclass comment
(`src/main.py` lines 101-103: "if left as None, then the original value is
preserved") and the `--trademark` CLI help text say the same — but
`update_field(7, config.trademark)` runs unconditionally (line 197) and its
filter deletes every Trademark record before the `None` value suppresses the
reinsert.  Evaluation at the failing input: one Trademark record, plan
all-`None`; the output is empty instead of preserving the record.
(Manufacturer and Designer are guarded by `is not None` checks, lines 193-196,
and do behave as claimed; Copyright at line 200 has the same bug as
Trademark.) -/
theorem c2_trademark_none_deletes :
    update_font_metadata { new_family := "F" } [⟨7, 3, 1, 0x409, some "TM"⟩] = [] ∧
    update_font_metadata { new_family := "F" } [⟨0, 3, 1, 0x409, some "(c) x"⟩] = [] := by
  constructor <;> decide

/-- Claim C7 (confirmed): every record whose field id is Family (1) or
TypographicFamily (16) has its text replaced with `new_family` while keeping
the record's own platform, encoding and language ids (mutated in place, not
removed and reinserted), so the number of Family/TypographicFamily records and
their variant identities are unchanged.  (`new_family` is always present: it
is a required field of the plan.) -/
theorem c7_family_inplace (config : FontToolConfig) (names : List NameRecord) :
    (update_font_metadata config names).filter
        (fun r => r.nameID == 1 || r.nameID == 16) =
      (names.filter (fun r => r.nameID == 1 || r.nameID == 16)).map
        (fun r => { r with text := some config.new_family }) ∧
    ((update_font_metadata config names).filter
        (fun r => r.nameID == 1 || r.nameID == 16)).length =
      (names.filter (fun r => r.nameID == 1 || r.nameID == 16)).length := by
  have hmain : (update_font_metadata config names).filter
      (fun r => r.nameID == 1 || r.nameID == 16) =
      (names.filter (fun r => r.nameID == 1 || r.nameID == 16)).map
        (fun r => { r with text := some config.new_family }) := by
    rw [update_font_metadata_shape, List.filter_append]
    have happ : (appendsOf config (new_subfamily config names)
        (version_string names)).filter (fun r => r.nameID == 1 || r.nameID == 16) = [] :=
      List.filter_eq_nil_iff.mpr fun r hr => by
        rcases appendsOf_mem hr with h | h | h | h | h | h | h | h <;> rw [h] <;> decide
    rw [happ, List.append_nil, List.filter_filter]
    have hpt : ∀ r ∈ names.map (mutDerived config.new_family (new_subfamily config names)),
        ((r.nameID == 1 || r.nameID == 16) &&
          keepB config (truthy (version_string names)) r.nameID) =
          (r.nameID == 1 || r.nameID == 16) := by
      intro r _
      cases h1 : r.nameID == 1
      · cases h16 : r.nameID == 16
        · simp [h1, h16]
        · have hr16 : r.nameID = 16 := by simpa using h16
          rw [hr16, keepB_at_sixteen]
          decide
      · have hr1 : r.nameID = 1 := by simpa using h1
        rw [hr1, keepB_at_one]
        decide
    rw [List.filter_congr hpt,
      filter_map_comm _ _ (fun r => by rw [mutDerived_nameID])]
    refine List.map_congr_left fun r hr => ?_
    have hid : r.nameID = 1 ∨ r.nameID = 16 := by
      have := (List.mem_filter.mp hr).2
      simpa using this
    unfold mutDerived
    rw [if_pos hid]
  exact ⟨hmain, by rw [hmain, List.length_map]⟩

/-- Claim C10 (confirmed): if the input table has no FullName (4) record
(resp. no PostScriptName (6) record), the output has none either, even though
`new_family` is present: the derived fields are written only by mutating
existing records in place and are never newly created. -/
theorem c10_derived_never_created (config : FontToolConfig) (names : List NameRecord) :
    ((∀ r ∈ names, r.nameID ≠ 4) →
      ∀ r ∈ update_font_metadata config names, r.nameID ≠ 4) ∧
    ((∀ r ∈ names, r.nameID ≠ 6) →
      ∀ r ∈ update_font_metadata config names, r.nameID ≠ 6) := by
  have key : ∀ i : Nat, i = 4 ∨ i = 6 → (∀ r ∈ names, r.nameID ≠ i) →
      ∀ r ∈ update_font_metadata config names, r.nameID ≠ i := by
    intro i hi hnone r hr
    rw [update_font_metadata_shape] at hr
    rcases List.mem_append.mp hr with h | h
    · have hm := (List.mem_filter.mp h).1
      rcases List.mem_map.mp hm with ⟨r', hr', rfl⟩
      rw [mutDerived_nameID]
      exact hnone r' hr'
    · rcases appendsOf_mem h with h' | h' | h' | h' | h' | h' | h' | h' <;> omega
  exact ⟨key 4 (Or.inl rfl), key 6 (Or.inr rfl)⟩

/-- Witness for C10 at a concrete table (one Family record, no FullName). -/
theorem c10_derived_never_created_witness :
    (⟨1, 0, 0, 0, some "F"⟩ : NameRecord).nameID ≠ 4 :=
  (c10_derived_never_created { new_family := "F" } [⟨1, 0, 0, 0, some "A"⟩]).1
    (by decide) ⟨1, 0, 0, 0, some "F"⟩ (by decide)

/-- Decode failures are swallowed (`except Exception: pass`, lines 126-134):
if every Subfamily (2) record is undecodable (or there is none), the
snapshotted original subfamily is the default `"Regular"`, and it is what the
derivation uses whenever the plan's subfamily is not a non-empty string. -/
lemma undecodable_subfamily_defaults (config : FontToolConfig)
    (names : List NameRecord) (h : ∀ r ∈ names, r.nameID = 2 → r.text = none) :
    original_subfamily names = "Regular" ∧
    (truthy config.subfamily = false → new_subfamily config names = "Regular") := by
  have hsub : original_subfamily names = "Regular" := by
    rw [original_subfamily_eq]
    exact foldl_subStep_undecodable names "Regular" h
  refine ⟨hsub, fun ht => ?_⟩
  cases hs : config.subfamily with
  | none => simp only [new_subfamily, hs]; exact hsub
  | some s =>
    rw [hs] at ht
    have hs' : s = "" := by simpa [truthy] using ht
    subst hs'
    simp only [new_subfamily, hs, if_pos rfl]
    exact hsub

/-- The effective subfamily exactly as the spec's words for C4 state it
("plan's subfamily if present, else the snapshotted original") — written from
the spec, to be compared with the code's `new_subfamily`, which additionally
falls back on an empty string. -/
def claimedEffectiveSubfamily (config : FontToolConfig) (names : List NameRecord) :
    String :=
  match config.subfamily with
  | some s => s
  | none => original_subfamily names

/-- Claim C4, counterexample: with `new_family = "F"` and subfamily supplied
as the empty string, the output FullName text is `"F Orig"` (the code falls
back to the snapshotted original, Python truthiness at line 137), not
`new_family ++ " " ++ effective_subfamily` = `"F "` as the claim's general
formula ("plan's subfamily if present") requires. -/
theorem c4_counterexample :
    ((update_font_metadata { new_family := "F", subfamily := some "" }
        [⟨2, 3, 1, 0x409, some "Orig"⟩, ⟨4, 3, 1, 0x409, some "X"⟩]).filter
      (fun r => r.nameID == 4)).map (fun r => r.text) = [some "F Orig"] ∧
    "F Orig" ≠ "F" ++ " " ++
      claimedEffectiveSubfamily { new_family := "F", subfamily := some "" }
        [⟨2, 3, 1, 0x409, some "Orig"⟩, ⟨4, 3, 1, 0x409, some "X"⟩] := by
  constructor <;> decide

/-- Claim C4 (amended): every FullName (4) record of the output carries
`new_family ++ " " ++ effective_subfamily` and every PostScriptName (6) record
carries `stripSpaces new_family ++ "-" ++ stripSpaces effective_subfamily`,
where the effective subfamily is the plan's subfamily **if present and
non-empty**, else the snapshotted original (`new_subfamily`).  In particular
with `new_family = "Acme Sans"`, `subfamily = "Bold"` the texts are
`"Acme Sans Bold"` and `"AcmeSans-Bold"`. -/
theorem c4_derivation (config : FontToolConfig) (names : List NameRecord)
    (r : NameRecord) (h : r ∈ update_font_metadata config names) :
    (r.nameID = 4 →
      r.text = some (config.new_family ++ " " ++ new_subfamily config names)) ∧
    (r.nameID = 6 →
      r.text = some (stripSpaces config.new_family ++ "-" ++
        stripSpaces (new_subfamily config names))) := by
  rw [update_font_metadata_shape] at h
  rcases List.mem_append.mp h with h | h
  · have hm := (List.mem_filter.mp h).1
    rcases List.mem_map.mp hm with ⟨r', hr', rfl⟩
    constructor
    · intro h4
      rw [mutDerived_nameID] at h4
      unfold mutDerived
      rw [h4]
      simp
    · intro h6
      rw [mutDerived_nameID] at h6
      unfold mutDerived
      rw [h6]
      simp
  · constructor <;> intro hid <;>
      rcases appendsOf_mem h with h' | h' | h' | h' | h' | h' | h' | h' <;> omega

/-- Witness for C4 at the claim's own concrete instance
(`"Acme Sans"`/`"Bold"`). -/
theorem c4_derivation_witness :
    (⟨4, 3, 1, 0x409, some "Acme Sans Bold"⟩ : NameRecord).text =
      some ("Acme Sans" ++ " " ++
        new_subfamily { new_family := "Acme Sans", subfamily := some "Bold" }
          [⟨4, 3, 1, 0x409, some "X"⟩, ⟨6, 3, 1, 0x409, some "Y"⟩]) :=
  (c4_derivation { new_family := "Acme Sans", subfamily := some "Bold" }
      [⟨4, 3, 1, 0x409, some "X"⟩, ⟨6, 3, 1, 0x409, some "Y"⟩]
      ⟨4, 3, 1, 0x409, some "Acme Sans Bold"⟩ (by decide)).1 rfl

/-- Claim C9, counterexample: when the snapshotted original subfamily is
itself the empty string (here the single Subfamily record decodes to `""`),
supplying subfamily as `""` removes all Subfamily records and reinserts
nothing — the output has zero Subfamily records, not the claimed exactly
one. -/
theorem c9_counterexample :
    (update_font_metadata { new_family := "F", subfamily := some "" }
        [⟨2, 3, 1, 0x409, some ""⟩]).filter (fun r => r.nameID == 2) = [] := by
  decide

/-- Claim C9 (amended): when the plan's subfamily is supplied as the empty
string **and the snapshotted original subfamily text is non-empty**, the
transformer removes all Subfamily (2) records and reinserts exactly one
canonical (platform 3, encoding 1, language 0x409) record carrying the
original snapshotted text, and the FullName/PostScriptName derivation uses
that original subfamily. -/
theorem c9_subfamily_empty (config : FontToolConfig) (names : List NameRecord)
    (hs : config.subfamily = some "") (h0 : original_subfamily names ≠ "") :
    (update_font_metadata config names).filter (fun r => r.nameID == 2) =
      [setNameRecord (original_subfamily names) 2] ∧
    new_subfamily config names = original_subfamily names := by
  have hns : new_subfamily config names = original_subfamily names := by
    simp [new_subfamily, hs]
  refine ⟨?_, hns⟩
  rw [output_filter_at, keepB_at_two, hs, appendsOf_filter_two]
  simp only [Option.isSome_some, Bool.not_true, Bool.false_eq_true, if_false,
    List.nil_append, subApp, hs, hns, optAppend, if_neg h0]

/-- Witness for C9 at a concrete table whose original subfamily is "Book". -/
theorem c9_subfamily_empty_witness :
    (update_font_metadata { new_family := "F", subfamily := some "" }
        [⟨2, 3, 1, 0x409, some "Book"⟩]).filter (fun r => r.nameID == 2) =
      [setNameRecord (original_subfamily [⟨2, 3, 1, 0x409, some "Book"⟩]) 2] ∧
    new_subfamily { new_family := "F", subfamily := some "" }
        [⟨2, 3, 1, 0x409, some "Book"⟩] =
      original_subfamily [⟨2, 3, 1, 0x409, some "Book"⟩] :=
  c9_subfamily_empty { new_family := "F", subfamily := some "" }
    [⟨2, 3, 1, 0x409, some "Book"⟩] rfl (by decide)

/-- Claim C3, counterexample: the input table has decodable Version (5)
records (both decode to `""`), yet the output has two Version records, not
exactly one: the restore at line 203 is guarded by Python truthiness
(`if version_string:`), so an empty captured text is never reinserted and the
original records pass through untouched. -/
theorem c3_counterexample :
    ((update_font_metadata { new_family := "F" }
        [⟨5, 3, 1, 0x409, some ""⟩, ⟨5, 1, 0, 0, some ""⟩]).filter
      (fun r => r.nameID == 5)).length = 2 := by
  decide

/-- Claim C3 (amended): if the input table has a decodable Version (5) record
and the captured Version text (the last decodable one) is **non-empty**, the
output table contains exactly one Version record — the canonical variant
carrying that text — no matter which other fields the plan updates or
deletes. -/
theorem c3_version_preserved (config : FontToolConfig) (names : List NameRecord)
    (v : String) (hv : version_string names = some v) (hne : v ≠ "") :
    (update_font_metadata config names).filter (fun r => r.nameID == 5) =
      [setNameRecord v 5] := by
  have htv : truthy (version_string names) = true := by rw [hv]; simp [truthy, hne]
  rw [output_filter_at, keepB_at_five, htv, appendsOf_filter_five, hv]
  simp [optAppend, hne]

/-- Witness for C3 at a concrete table with Version "1.000". -/
theorem c3_version_preserved_witness :
    (update_font_metadata { new_family := "F" }
        [⟨5, 3, 1, 0x409, some "1.000"⟩]).filter (fun r => r.nameID == 5) =
      [setNameRecord "1.000" 5] :=
  c3_version_preserved { new_family := "F" } [⟨5, 3, 1, 0x409, some "1.000"⟩]
    "1.000" (by decide) (by decide)

lemma optAppend_filter_self (v : Option String) (i : Nat) :
    (optAppend v i).filter (fun r => r.nameID == i) = optAppend v i :=
  filter_eq_self_of_ids fun _ hr => (optAppend_mem hr).1

lemma optAppend_filter_ne (v : Option String) {j i : Nat} (h : j ≠ i) :
    (optAppend v j).filter (fun r => r.nameID == i) = [] :=
  filter_eq_nil_of_ids fun _ hr => by rw [(optAppend_mem hr).1]; exact h

lemma appendsOf_filter_13 (config : FontToolConfig) (ns : String) (vs : Option String) :
    (appendsOf config ns vs).filter (fun r => r.nameID == 13) =
      (licAppends config).filter (fun r => r.nameID == 13) := by
  unfold appendsOf
  simp only [List.filter_append]
  rw [filter_eq_nil_of_ids (fun r hr => by rw [(subApp_nameID hr).1]; decide),
    optAppend_filter_ne _ (by decide), optAppend_filter_ne _ (by decide),
    optAppend_filter_ne _ (by decide), optAppend_filter_ne _ (by decide),
    optAppend_filter_ne _ (by decide)]
  simp

lemma appendsOf_filter_14 (config : FontToolConfig) (ns : String) (vs : Option String) :
    (appendsOf config ns vs).filter (fun r => r.nameID == 14) =
      (licAppends config).filter (fun r => r.nameID == 14) := by
  unfold appendsOf
  simp only [List.filter_append]
  rw [filter_eq_nil_of_ids (fun r hr => by rw [(subApp_nameID hr).1]; decide),
    optAppend_filter_ne _ (by decide), optAppend_filter_ne _ (by decide),
    optAppend_filter_ne _ (by decide), optAppend_filter_ne _ (by decide),
    optAppend_filter_ne _ (by decide)]
  simp

/-- When the plan carries an explicitly resolved license pair (the CLI path
always does), the output has exactly one record each for fields 13 and 14,
carrying that pair at the canonical variant. -/
lemma license_slices (config : FontToolConfig) (names : List NameRecord)
    (lt lu : String) (hlt : config.license_text = some lt)
    (hlu : config.license_url = some lu) (hlt' : lt ≠ "") (hlu' : lu ≠ "") :
    (update_font_metadata config names).filter (fun r => r.nameID == 13) =
      [setNameRecord lt 13] ∧
    (update_font_metadata config names).filter (fun r => r.nameID == 14) =
      [setNameRecord lu 14] := by
  have happ : licenseApplied config = true := by simp only [licenseApplied, hlt]
  constructor
  · rw [output_filter_at, keepB_at_13, happ, appendsOf_filter_13]
    simp only [Bool.not_true, Bool.false_eq_true, if_false, List.nil_append,
      licAppends, hlt]
    rw [List.filter_append, optAppend_filter_self,
      optAppend_filter_ne _ (by decide : (14 : Nat) ≠ 13), List.append_nil]
    simp only [optAppend, if_neg hlt']
  · rw [output_filter_at, keepB_at_14, happ, appendsOf_filter_14]
    simp only [Bool.not_true, Bool.false_eq_true, if_false, List.nil_append,
      licAppends, hlt]
    rw [List.filter_append, optAppend_filter_ne _ (by decide : (13 : Nat) ≠ 14),
      optAppend_filter_self, List.nil_append, hlu]
    simp only [optAppend, if_neg hlu']

/-- Claim C5 (confirmed): selecting OFL, Apache or MIT always succeeds and
writes the corresponding pinned (text, url) pair as exactly one record each
for fields 13 and 14; selecting Custom with both a non-empty text and a
non-empty url writes those verbatim; selecting Custom with either value
missing (absent or empty — Python truthiness at line 464) aborts with the
fatal configuration error before any font data is mutated, and no output
table is produced. -/
theorem c5_license_exclusivity (current_year : Nat) (names : List NameRecord)
    (new_family : String)
    (subfamily manufacturer designer trademark copyright_text : Option String) :
    (∀ lt : LicenseType, lt ≠ LicenseType.CUSTOM → ∀ cl cu : Option String,
      ∃ li : String × String, LICENSE_INFO lt = some li ∧
        ∃ out, process_font current_year names new_family subfamily lt cl cu
            manufacturer designer trademark copyright_text = Except.ok out ∧
          out.filter (fun r => r.nameID == 13) = [setNameRecord li.1 13] ∧
          out.filter (fun r => r.nameID == 14) = [setNameRecord li.2 14]) ∧
    (∀ cl cu : String, cl ≠ "" → cu ≠ "" →
      ∃ out, process_font current_year names new_family subfamily
          LicenseType.CUSTOM (some cl) (some cu)
          manufacturer designer trademark copyright_text = Except.ok out ∧
        out.filter (fun r => r.nameID == 13) = [setNameRecord cl 13] ∧
        out.filter (fun r => r.nameID == 14) = [setNameRecord cu 14]) ∧
    (∀ cl cu : Option String, ¬(truthy cl = true ∧ truthy cu = true) →
      process_font current_year names new_family subfamily LicenseType.CUSTOM cl cu
          manufacturer designer trademark copyright_text =
        Except.error ConfigurationError.customLicenseMissing) := by
  refine ⟨?_, ?_, ?_⟩
  · intro lt hlt cl cu
    have hinfo : ∃ li : String × String,
        LICENSE_INFO lt = some li ∧ li.1 ≠ "" ∧ li.2 ≠ "" := by
      cases lt
      · exact ⟨_, rfl, by decide, by decide⟩
      · exact ⟨_, rfl, by decide, by decide⟩
      · exact ⟨_, rfl, by decide, by decide⟩
      · exact absurd rfl hlt
    rcases hinfo with ⟨li, hli, h1, h2⟩
    have hne : (lt == LicenseType.CUSTOM) = false := by
      cases lt
      · rfl
      · rfl
      · rfl
      · exact absurd rfl hlt
    refine ⟨li, hli, ?_⟩
    simp only [process_font, hne, hli, Bool.false_and, Bool.not_false,
      Bool.false_eq_true, if_false]
    exact ⟨_, rfl, (license_slices _ names li.1 li.2 rfl rfl h1 h2).1,
      (license_slices _ names li.1 li.2 rfl rfl h1 h2).2⟩
  · intro cl cu h1 h2
    have ht1 : truthy (some cl) = true := by simp [truthy, h1]
    have ht2 : truthy (some cu) = true := by simp [truthy, h2]
    simp only [process_font, ht1, ht2, Bool.and_self, Bool.not_true, Bool.and_false,
      Bool.false_eq_true, if_false, beq_self_eq_true, if_true, Option.getD_some]
    exact ⟨_, rfl, (license_slices _ names cl cu rfl rfl h1 h2).1,
      (license_slices _ names cl cu rfl rfl h1 h2).2⟩
  · intro cl cu hnc
    have hfalse : (truthy cl && truthy cu) = false := by
      cases hc1 : truthy cl <;> cases hc2 : truthy cu <;> simp_all
    simp only [process_font, hfalse, Bool.not_false, Bool.and_true, beq_self_eq_true,
      if_true]

/-- Witness for C5: a Custom selection with both values missing aborts. -/
theorem c5_license_exclusivity_witness :
    process_font 2026 [] "F" none LicenseType.CUSTOM none none none none none none =
      Except.error ConfigurationError.customLicenseMissing :=
  (c5_license_exclusivity 2026 [] "F" none none none none none).2.2 none none
    (by decide)

/-!
### Idempotence infrastructure (claim C6)
-/

lemma keepB_at_eight (config : FontToolConfig) (tv : Bool) :
    keepB config tv 8 = !config.manufacturer.isSome := by
  simp [keepB, removedB, ALLOWED_NAME_IDS]

lemma keepB_at_nine (config : FontToolConfig) (tv : Bool) :
    keepB config tv 9 = !config.designer.isSome := by
  simp [keepB, removedB, ALLOWED_NAME_IDS]

lemma keepB_at_seven (config : FontToolConfig) (tv : Bool) : keepB config tv 7 = false := by
  simp [keepB, removedB]

lemma keepB_at_zero (config : FontToolConfig) (tv : Bool) : keepB config tv 0 = false := by
  simp [keepB, removedB]

/-- Every appended record belongs to a field id that the same run removes, so
it never survives the survivor filter of a second run. -/
lemma appendsOf_keep_false (config : FontToolConfig) (ns : String) (vs : Option String) :
    ∀ r ∈ appendsOf config ns vs, keepB config (truthy vs) r.nameID = false := by
  intro r hr
  unfold appendsOf at hr
  simp only [List.mem_append] at hr
  rcases hr with ((((((h | h) | h) | h) | h) | h) | h)
  · rcases subApp_nameID h with ⟨h2, hsome⟩
    rw [h2, keepB_at_two, hsome]
    decide
  · rcases licAppends_nameID h with ⟨hid, happ⟩
    rcases hid with h' | h'
    · rw [h', keepB_at_13, happ]
      decide
    · rw [h', keepB_at_14, happ]
      decide
  · rcases optAppend_mem h with ⟨h8, s, hvs, _, _⟩
    rw [h8, keepB_at_eight, hvs]
    rfl
  · rcases optAppend_mem h with ⟨h9, s, hvs, _, _⟩
    rw [h9, keepB_at_nine, hvs]
    rfl
  · rw [(optAppend_mem h).1, keepB_at_seven]
  · rw [(optAppend_mem h).1, keepB_at_zero]
  · rcases optAppend_mem h with ⟨h5, s, hvs, hs, _⟩
    rw [h5, keepB_at_five, hvs]
    simp [truthy, hs]

lemma mutDerived_idem (fam ns : String) (r : NameRecord) :
    mutDerived fam ns (mutDerived fam ns r) = mutDerived fam ns r := by
  rcases r with ⟨j, p, e, lg, t⟩
  by_cases h1 : j = 1 ∨ j = 16
  · rcases h1 with h | h <;> subst h <;> simp [mutDerived]
  · by_cases h4 : j = 4
    · subst h4; simp [mutDerived]
    · by_cases h6 : j = 6
      · subst h6; simp [mutDerived]
      · simp [mutDerived, h1, h4, h6]

lemma base_map_mut (fam ns : String) (q : NameRecord → Bool) (names : List NameRecord)
    (hq : ∀ r, q (mutDerived fam ns r) = q r) :
    ((names.map (mutDerived fam ns)).filter q).map (mutDerived fam ns) =
      (names.map (mutDerived fam ns)).filter q := by
  rw [← filter_map_comm _ q hq, List.map_map]
  congr 1
  exact List.map_congr_left fun r _ => mutDerived_idem fam ns r

lemma appendsOf_map_mut (fam ns : String) (config : FontToolConfig) (ns' : String)
    (vs : Option String) :
    (appendsOf config ns' vs).map (mutDerived fam ns) = appendsOf config ns' vs := by
  have hid : ∀ r ∈ appendsOf config ns' vs, mutDerived fam ns r = id r := fun r hr => by
    rcases appendsOf_mem hr with h | h | h | h | h | h | h | h <;>
      exact mutDerived_id (by omega) (by omega) (by omega) (by omega)
  rw [List.map_congr_left hid, List.map_id]

lemma base_filter_keep (M : List NameRecord) (q : NameRecord → Bool) :
    (M.filter q).filter q = M.filter q := by
  rw [List.filter_filter]
  exact List.filter_congr fun r _ => Bool.and_self _

lemma appendsOf_filter_keep (config : FontToolConfig) (ns : String) (vs : Option String) :
    (appendsOf config ns vs).filter
      (fun r => keepB config (truthy vs) r.nameID) = [] :=
  List.filter_eq_nil_iff.mpr fun r hr => by
    rw [appendsOf_keep_false config ns vs r hr]
    decide

/-- Rerunning the transformer does not change the captured version text. -/
lemma version_string_output (config : FontToolConfig) (names : List NameRecord) :
    version_string (update_font_metadata config names) = version_string names := by
  rw [version_string_eq (update_font_metadata config names),
    foldl_verStep_filter (update_font_metadata config names) none, output_filter_at]
  cases hv : version_string names with
  | none =>
    rw [keepB_at_five, appendsOf_filter_five]
    simp only [truthy, Bool.not_false, if_true, optAppend, List.append_nil]
    rw [map_mut_filter_at _ _ _ 5 (by decide) (by decide) (by decide) (by decide),
      ← foldl_verStep_filter, ← version_string_eq]
    exact hv
  | some v =>
    rw [keepB_at_five, appendsOf_filter_five]
    by_cases hvv : v = ""
    · subst hvv
      rw [show truthy (some "") = false by decide]
      simp only [Bool.not_false, if_true]
      rw [show optAppend (some "") 5 = [] by decide, List.append_nil]
      rw [map_mut_filter_at _ _ _ 5 (by decide) (by decide) (by decide) (by decide),
        ← foldl_verStep_filter, ← version_string_eq]
      exact hv
    · have ht : truthy (some v) = true := by simp [truthy, hvv]
      rw [ht]
      simp only [Bool.not_true, Bool.false_eq_true, if_false, List.nil_append]
      simp [optAppend, hvv, verStep, setNameRecord]

/-- Rerunning the transformer computes the same effective subfamily, provided
the degenerate case (subfamily supplied empty while the snapshot is empty) is
excluded. -/
lemma new_subfamily_output (config : FontToolConfig) (names : List NameRecord)
    (h : config.subfamily = some "" → original_subfamily names ≠ "") :
    new_subfamily config (update_font_metadata config names) =
      new_subfamily config names := by
  cases hs : config.subfamily with
  | none =>
    have hσ : original_subfamily (update_font_metadata config names) =
        original_subfamily names := by
      rw [original_subfamily_eq (update_font_metadata config names),
        foldl_subStep_filter (update_font_metadata config names) "Regular",
        output_filter_at, keepB_at_two, hs, appendsOf_filter_two]
      simp only [Option.isSome_none, Bool.not_false, if_true, subApp, hs,
        List.append_nil]
      rw [map_mut_filter_at _ _ _ 2 (by decide) (by decide) (by decide) (by decide),
        ← foldl_subStep_filter, ← original_subfamily_eq]
    simp only [new_subfamily, hs]
    exact hσ
  | some s =>
    by_cases hss : s = ""
    · subst hss
      have hσ0 : original_subfamily names ≠ "" := h hs
      have hns : new_subfamily config names = original_subfamily names := by
        simp [new_subfamily, hs]
      have hσ : original_subfamily (update_font_metadata config names) =
          original_subfamily names := by
        rw [original_subfamily_eq (update_font_metadata config names),
          foldl_subStep_filter (update_font_metadata config names) "Regular",
          output_filter_at, keepB_at_two, hs, appendsOf_filter_two]
        simp only [Option.isSome_some, Bool.not_true, Bool.false_eq_true, if_false,
          List.nil_append, subApp, hs, hns]
        simp [optAppend, hσ0, subStep, setNameRecord]
      simp only [new_subfamily, hs, if_pos rfl]
      exact hσ
    · simp [new_subfamily, hs, hss]

/-- Claim C6, counterexample: with plan subfamily `""` and an input whose only
Subfamily record decodes to `""`, the first run deletes all Subfamily records
(the snapshot is empty, so nothing is reinserted), while the second run —
seeing no Subfamily record — snapshots the default `"Regular"` and reinserts
it, so the second output differs from the first. -/
theorem c6_counterexample :
    update_font_metadata { new_family := "F", subfamily := some "" }
        (update_font_metadata { new_family := "F", subfamily := some "" }
          [⟨2, 3, 1, 0x409, some ""⟩]) ≠
      update_font_metadata { new_family := "F", subfamily := some "" }
        [⟨2, 3, 1, 0x409, some ""⟩] := by
  decide

/-- Claim C6 (amended): applying the transformer a second time with the same
plan yields a field-for-field identical table, **except** in the degenerate
case where the plan supplies subfamily as the empty string and the input's
snapshotted original subfamily is itself empty (then the first run deletes
the Subfamily field and the second resurrects it as `"Regular"`). -/
theorem c6_idempotent (config : FontToolConfig) (names : List NameRecord)
    (h : config.subfamily = some "" → original_subfamily names ≠ "") :
    update_font_metadata config (update_font_metadata config names) =
      update_font_metadata config names := by
  have hv := version_string_output config names
  have hn := new_subfamily_output config names h
  rw [update_font_metadata_shape config (update_font_metadata config names), hv, hn,
    update_font_metadata_shape config names, List.map_append, List.filter_append,
    base_map_mut, appendsOf_map_mut, base_filter_keep, appendsOf_filter_keep,
    List.append_nil]
  intro r
  simp only [mutDerived_nameID]

/-- Witness for C6 at a concrete table and plan. -/
theorem c6_idempotent_witness :
    update_font_metadata { new_family := "F", trademark := some "TM" }
        (update_font_metadata { new_family := "F", trademark := some "TM" }
          [⟨1, 3, 1, 0x409, some "Old"⟩, ⟨2, 3, 1, 0x409, some "Regular"⟩,
           ⟨5, 3, 1, 0x409, some "1.000"⟩]) =
      update_font_metadata { new_family := "F", trademark := some "TM" }
        [⟨1, 3, 1, 0x409, some "Old"⟩, ⟨2, 3, 1, 0x409, some "Regular"⟩,
         ⟨5, 3, 1, 0x409, some "1.000"⟩] :=
  c6_idempotent { new_family := "F", trademark := some "TM" }
    [⟨1, 3, 1, 0x409, some "Old"⟩, ⟨2, 3, 1, 0x409, some "Regular"⟩,
     ⟨5, 3, 1, 0x409, some "1.000"⟩] (by intro hx; decide)

/-!
### The encode path (claim C8)

The in-place rewrites at lines 150, 163 and 170 call
`value.encode(record.getEncoding())` without a guard.  `getEncoding` (the
external font library, fontTools `_n_a_m_e.py`) picks a Python codec from the
record's platform/encoding pair, defaulting to `"ascii"` for pairs outside
its map, and `str.encode` raises `UnicodeEncodeError` when the codec cannot
represent the value.  `update_font_metadata_checked` below is the same
transformer with this error path modelled; the total `update_font_metadata`
above is its successful case.
-/

/-- Platform/encoding pairs that the library maps to the `utf_16_be` codec,
which encodes every string: the Unicode platform (0, encodings 0-6), ISO
(2, 1) and the Windows Unicode pairs (3, 0), (3, 1) and (3, 10). -/
def isUTF16Pair (platformID platEncID : Nat) : Bool :=
  (platformID == 0 && (platEncID == 0 || platEncID == 1 || platEncID == 2 ||
      platEncID == 3 || platEncID == 4 || platEncID == 5 || platEncID == 6)) ||
  (platformID == 2 && platEncID == 1) ||
  (platformID == 3 && (platEncID == 0 || platEncID == 1 || platEncID == 10))

/-- Whether `value.encode(record.getEncoding())` succeeds.  UTF-16 pairs
always succeed.  Every other pair is modelled as accepting exactly the ASCII
range: this is exact for the `"ascii"` codec — ISO (2, 0) and every pair
outside the library's map — and over-approximates failure for the remaining
narrow codecs (`latin1`, the Macintosh and Windows legacy code pages), each
of which accepts all of ASCII and some characters beyond it.  So
`canEncode = true` always implies the real encode succeeds, and a reported
failure at an `"ascii"` pair is a real `UnicodeEncodeError`. -/
def canEncode (platformID platEncID : Nat) (value : String) : Bool :=
  if isUTF16Pair platformID platEncID then true
  else value.data.all (fun c => c.toNat < 128)

/-- The exception raised by an unguarded `str.encode` at lines 150/163/170. -/
inductive UnicodeEncodeError where
  | unencodable
deriving DecidableEq, Repr

/-- `record.string = value.encode(record.getEncoding())`: the in-place write,
failing iff the record's codec cannot represent the value. -/
def encodeTo (r : NameRecord) (value : String) : Except UnicodeEncodeError NameRecord :=
  if canEncode r.platformID r.platEncID value then
    Except.ok { r with text := some value }
  else
    Except.error UnicodeEncodeError.unencodable

/-- Line 150 with the encode checked. -/
def famApplyChecked (fam : String) (r : NameRecord) :
    Except UnicodeEncodeError NameRecord :=
  if r.nameID = 1 ∨ r.nameID = 16 then encodeTo r fam else Except.ok r

/-- Line 163 with the encode checked. -/
def fullApplyChecked (fam ns : String) (r : NameRecord) :
    Except UnicodeEncodeError NameRecord :=
  if r.nameID = 4 then encodeTo r (fam ++ " " ++ ns) else Except.ok r

/-- Lines 169-170 with the encode checked. -/
def psApplyChecked (fam ns : String) (r : NameRecord) :
    Except UnicodeEncodeError NameRecord :=
  if r.nameID = 6 then encodeTo r (stripSpaces fam ++ "-" ++ stripSpaces ns)
  else Except.ok r

/-- `update_font_metadata` with the unguarded encodes of lines 150, 163 and
170 modelled: each of the three in-place loops stops at the first record
whose codec rejects the new text, as the raised `UnicodeEncodeError`
propagates out of the function (nothing in `src/main.py` catches it before
the save, so no output is produced).  All other steps are the total ones
above. -/
def update_font_metadata_checked (config : FontToolConfig)
    (names : List NameRecord) : Except UnicodeEncodeError (List NameRecord) := do
  let names1 ← names.mapM (famApplyChecked config.new_family)
  let names2 := subfamilyStep config (new_subfamily config names) names1
  let names3 ← names2.mapM
    (fullApplyChecked config.new_family (new_subfamily config names))
  let names4 ← names3.mapM
    (psApplyChecked config.new_family (new_subfamily config names))
  pure (whitelistStep
    (versionStep (version_string names)
      (update_field
        (update_field
          (designerStep config (manufacturerStep config (licenseStep config names4)))
          7 config.trademark)
        0 config.copyright_text)))

lemma mapM_ok_of (f : NameRecord → Except UnicodeEncodeError NameRecord)
    (g : NameRecord → NameRecord) (l : List NameRecord)
    (h : ∀ r ∈ l, f r = Except.ok (g r)) :
    l.mapM f = Except.ok (l.map g) := by
  induction l with
  | nil => rfl
  | cons a t ih =>
    rw [List.mapM_cons, h a (by simp), ih (fun r hr => h r (by simp [hr]))]
    rfl

lemma famApplyChecked_ok (fam : String) (r : NameRecord)
    (h : (r.nameID = 1 ∨ r.nameID = 16) →
      canEncode r.platformID r.platEncID fam = true) :
    famApplyChecked fam r = Except.ok (famApply fam r) := by
  unfold famApplyChecked famApply encodeTo
  by_cases h1 : r.nameID = 1 ∨ r.nameID = 16
  · rw [if_pos h1, if_pos h1, if_pos (h h1)]
  · rw [if_neg h1, if_neg h1]

lemma fullApplyChecked_ok (fam ns : String) (r : NameRecord)
    (h : r.nameID = 4 →
      canEncode r.platformID r.platEncID (fam ++ " " ++ ns) = true) :
    fullApplyChecked fam ns r = Except.ok (fullApply fam ns r) := by
  unfold fullApplyChecked fullApply encodeTo
  by_cases h4 : r.nameID = 4
  · rw [if_pos h4, if_pos h4, if_pos (h h4)]
  · rw [if_neg h4, if_neg h4]

lemma psApplyChecked_ok (fam ns : String) (r : NameRecord)
    (h : r.nameID = 6 → canEncode r.platformID r.platEncID
      (stripSpaces fam ++ "-" ++ stripSpaces ns) = true) :
    psApplyChecked fam ns r = Except.ok (psApply fam ns r) := by
  unfold psApplyChecked psApply encodeTo
  by_cases h6 : r.nameID = 6
  · rw [if_pos h6, if_pos h6, if_pos (h h6)]
  · rw [if_neg h6, if_neg h6]

lemma famApply_platform (fam : String) (r : NameRecord) :
    (famApply fam r).platformID = r.platformID ∧
      (famApply fam r).platEncID = r.platEncID := by
  unfold famApply; split <;> exact ⟨rfl, rfl⟩

lemma fullApply_platform (fam ns : String) (r : NameRecord) :
    (fullApply fam ns r).platformID = r.platformID ∧
      (fullApply fam ns r).platEncID = r.platEncID := by
  unfold fullApply; split <;> exact ⟨rfl, rfl⟩

lemma subfamilyStep_mem {config : FontToolConfig} {ns : String}
    {l : List NameRecord} {r : NameRecord} (h : r ∈ subfamilyStep config ns l) :
    r ∈ l ∨ r.nameID = 2 := by
  cases hs : config.subfamily with
  | none => simp only [subfamilyStep, hs] at h; exact Or.inl h
  | some s =>
    simp only [subfamilyStep, hs, update_field_eq] at h
    rcases List.mem_append.mp h with h' | h'
    · exact Or.inl (List.mem_of_mem_filter h')
    · exact Or.inr (optAppend_mem h').1

/-- Claim C8, counterexample: the transformer CAN raise.  A Family (1) record
at ISO platform 2, encoding 0 — whose codec is 7-bit `"ascii"` — together
with a new family name containing `Ω` makes the unguarded
`config.new_family.encode(encoding)` at line 150 raise `UnicodeEncodeError`
mid-run, so the run produces no table at all. -/
theorem c8_counterexample :
    (update_font_metadata_checked { new_family := "Ω" }
        [⟨1, 2, 0, 0, some "Old"⟩]).isOk = false := by
  decide

/-- Claim C8 (amended): decode failures never raise — an undecodable record
is treated as if its value were absent, and an undecodable or missing
Subfamily (2) record makes the default `"Regular"` the snapshotted original
subfamily — but the in-place encodes at lines 150/163/170 are unguarded, so
the transformer only avoids raising `UnicodeEncodeError` when every
Family/TypographicFamily record's codec accepts `new_family` and every
FullName/PostScriptName record's codec accepts its derived text; under that
proviso the checked transformer succeeds and returns exactly the table of
the total model. -/
theorem c8_no_crash_guarded (config : FontToolConfig) (names : List NameRecord)
    (henc : ∀ r ∈ names,
      ((r.nameID = 1 ∨ r.nameID = 16) →
        canEncode r.platformID r.platEncID config.new_family = true) ∧
      (r.nameID = 4 → canEncode r.platformID r.platEncID
        (config.new_family ++ " " ++ new_subfamily config names) = true) ∧
      (r.nameID = 6 → canEncode r.platformID r.platEncID
        (stripSpaces config.new_family ++ "-" ++
          stripSpaces (new_subfamily config names)) = true)) :
    update_font_metadata_checked config names =
      Except.ok (update_font_metadata config names) ∧
    ((∀ r ∈ names, r.nameID = 2 → r.text = none) →
      original_subfamily names = "Regular" ∧
      (truthy config.subfamily = false → new_subfamily config names = "Regular")) := by
  refine ⟨?_, fun h2 => undecodable_subfamily_defaults config names h2⟩
  have hbind : ∀ (α β : Type) (x : α) (f : α → Except UnicodeEncodeError β),
      (Except.ok x >>= f) = f x := fun α β x f => rfl
  have h1 : names.mapM (famApplyChecked config.new_family) =
      Except.ok (familyStep config.new_family names) :=
    mapM_ok_of _ _ _ fun r hr => famApplyChecked_ok _ r (henc r hr).1
  have h3 : (subfamilyStep config (new_subfamily config names)
        (familyStep config.new_family names)).mapM
      (fullApplyChecked config.new_family (new_subfamily config names)) =
      Except.ok (fullNameStep config.new_family (new_subfamily config names)
        (subfamilyStep config (new_subfamily config names)
          (familyStep config.new_family names))) := by
    refine mapM_ok_of _ _ _ fun r hr => fullApplyChecked_ok _ _ r fun h4 => ?_
    rcases subfamilyStep_mem hr with h' | h'
    · simp only [familyStep] at h'
      rcases List.mem_map.mp h' with ⟨r', hr', rfl⟩
      rw [famApply_nameID] at h4
      rw [(famApply_platform config.new_family r').1,
        (famApply_platform config.new_family r').2]
      exact (henc r' hr').2.1 h4
    · omega
  have h4 : (fullNameStep config.new_family (new_subfamily config names)
        (subfamilyStep config (new_subfamily config names)
          (familyStep config.new_family names))).mapM
      (psApplyChecked config.new_family (new_subfamily config names)) =
      Except.ok (psNameStep config.new_family (new_subfamily config names)
        (fullNameStep config.new_family (new_subfamily config names)
          (subfamilyStep config (new_subfamily config names)
            (familyStep config.new_family names)))) := by
    refine mapM_ok_of _ _ _ fun r hr => psApplyChecked_ok _ _ r fun h6 => ?_
    simp only [fullNameStep] at hr
    rcases List.mem_map.mp hr with ⟨r2, hr2, rfl⟩
    rw [fullApply_nameID] at h6
    rw [(fullApply_platform config.new_family (new_subfamily config names) r2).1,
      (fullApply_platform config.new_family (new_subfamily config names) r2).2]
    rcases subfamilyStep_mem hr2 with h' | h'
    · simp only [familyStep] at h'
      rcases List.mem_map.mp h' with ⟨r', hr', rfl⟩
      rw [famApply_nameID] at h6
      rw [(famApply_platform config.new_family r').1,
        (famApply_platform config.new_family r').2]
      exact (henc r' hr').2.2 h6
    · omega
  unfold update_font_metadata_checked
  simp only [h1, h3, h4, hbind]
  rfl

/-- Witness for C8: a table whose mutated records sit at the Windows Unicode
pair (3, 1), with one undecodable Subfamily record, is transformed without
error and the `"Regular"` default applies. -/
theorem c8_no_crash_guarded_witness :
    update_font_metadata_checked { new_family := "NewFam" }
        [⟨1, 3, 1, 0x409, some "Old"⟩, ⟨2, 3, 1, 0x409, none⟩] =
      Except.ok (update_font_metadata { new_family := "NewFam" }
        [⟨1, 3, 1, 0x409, some "Old"⟩, ⟨2, 3, 1, 0x409, none⟩]) ∧
    original_subfamily [⟨1, 3, 1, 0x409, some "Old"⟩, ⟨2, 3, 1, 0x409, none⟩] =
      "Regular" :=
  ⟨(c8_no_crash_guarded { new_family := "NewFam" }
      [⟨1, 3, 1, 0x409, some "Old"⟩, ⟨2, 3, 1, 0x409, none⟩] (by decide)).1,
   ((c8_no_crash_guarded { new_family := "NewFam" }
      [⟨1, 3, 1, 0x409, some "Old"⟩, ⟨2, 3, 1, 0x409, none⟩] (by decide)).2
      (by decide)).1⟩

/-- Sanity evaluation of the whole embedding on the spec's end-to-end
scenario (spec section 8): family renamed in place, subfamily preserved,
license pair written, manufacturer untouched, empty trademark removed,
explicit copyright written, version restored canonically, field id 18
dropped. -/
lemma end_to_end_scenario :
    (update_font_metadata
        { new_family := "NewFont",
          license_type := some LicenseType.OFL,
          license_text := some "This Font Software is licensed under the SIL Open Font License, Version 1.1.",
          license_url := some "http://scripts.sil.org/OFL",
          trademark := some "",
          copyright_text := some "KeepMe" }
        [⟨1, 3, 1, 0x409, some "OldFont"⟩, ⟨2, 3, 1, 0x409, some "Regular"⟩,
         ⟨5, 3, 1, 0x409, some "1.000"⟩, ⟨8, 3, 1, 0x409, some "Acme"⟩,
         ⟨18, 3, 1, 0x409, some "junk"⟩]).map (fun r => (r.nameID, r.text)) =
      [(1, some "NewFont"), (2, some "Regular"), (8, some "Acme"),
       (13, some "This Font Software is licensed under the SIL Open Font License, Version 1.1."),
       (14, some "http://scripts.sil.org/OFL"),
       (0, some "KeepMe"), (5, some "1.000")] := by
  decide
